import Mathlib

/-!
Shallow embedding of `cli/src/cmd/forge/script/broadcast.rs`
(`ScriptArgs::send_transactions` and its helper functions
`set_chain_id`, `into_legacy`, `into_legacy_ref`, `into_1559`).

Machine integers: every nonce/offset value in the source is an ethers
`U256`.  We model `U256` values as `Nat` together with the explicit
bound `U256_LIMIT = 2 ^ 256`; `U256` addition and subtraction in the
`primitive-types` crate panic on overflow/underflow in every build
profile, so they are modelled as `Option`-valued checked operations
(`none` = arithmetic-overflow panic).

Effects: the network (chain-id probe, per-account nonce queries,
transaction submission) is modelled as an oracle `Env` supplied to the
run; the mutable `ScriptSequence` and the `nonce_offset` map are
threaded explicitly through a `RunState`.  `save()` appends a snapshot
of the in-memory sequence to the `saved` trace, so `saved` is exactly
the list of persisted writes the run performed, in order.  Panics
(`panic!` / `.expect`) abort the run with a `PanicKind`; the `?` on the
chain-id probe is an early `Err` return, distinct from a panic.
-/

namespace Foundry

/-- Number of values of the ethers `U256` type. -/
def U256_LIMIT : Nat := 2 ^ 256

/-- Checked `U256` subtraction: `primitive-types` panics on underflow
(`none` models the panic). -/
def u256_sub (a b : Nat) : Option Nat :=
  if b ≤ a then some (a - b) else none

/-- Checked `U256` addition: `primitive-types` panics on overflow
(`none` models the panic). -/
def u256_add (a b : Nat) : Option Nat :=
  if a + b < U256_LIMIT then some (a + b) else none

/-- Account addresses (ethers `Address`), abstracted to `Nat`. -/
abbrev Address := Nat

/-- ethers `TransactionRequest` (the legacy transaction request),
restricted to the fields broadcast.rs reads or writes. -/
structure TransactionRequest where
  «from» : Option Address
  «to» : Option Address
  gas : Option Nat
  gas_price : Option Nat
  value : Option Nat
  data : Option (List Nat)
  nonce : Option Nat
  chain_id : Option Nat
deriving DecidableEq

/-- ethers `Eip1559TransactionRequest`, restricted to the fields
broadcast.rs reads or writes; `Default::default()` fills the fields
`into_1559` does not carry over. -/
structure Eip1559TransactionRequest where
  «from» : Option Address
  «to» : Option Address
  gas : Option Nat
  value : Option Nat
  data : Option (List Nat)
  nonce : Option Nat
  access_list : List Nat
  max_priority_fee_per_gas : Option Nat
  max_fee_per_gas : Option Nat
  chain_id : Option Nat
deriving DecidableEq

/-- ethers `TypedTransaction`: the three wire formats. -/
inductive TypedTransaction where
  | legacy (tx : TransactionRequest)
  | eip2930 (tx : TransactionRequest) (access_list : List Nat)
  | eip1559 (tx : Eip1559TransactionRequest)
deriving DecidableEq

/-- ethers `TypedTransaction::from()`. -/
def TypedTransaction.sender : TypedTransaction → Option Address
  | .legacy tx => tx.«from»
  | .eip2930 tx _ => tx.«from»
  | .eip1559 tx => tx.«from»

/-- ethers `TypedTransaction::nonce()`. -/
def TypedTransaction.nonce : TypedTransaction → Option Nat
  | .legacy tx => tx.nonce
  | .eip2930 tx _ => tx.nonce
  | .eip1559 tx => tx.nonce

/-- ethers `TypedTransaction::set_nonce()`. -/
def TypedTransaction.set_nonce : TypedTransaction → Nat → TypedTransaction
  | .legacy tx, n => .legacy { tx with nonce := some n }
  | .eip2930 tx al, n => .eip2930 { tx with nonce := some n } al
  | .eip1559 tx, n => .eip1559 { tx with nonce := some n }

/-- Chain identifier stamped on a typed transaction. -/
def TypedTransaction.chainId : TypedTransaction → Option Nat
  | .legacy tx => tx.chain_id
  | .eip2930 tx _ => tx.chain_id
  | .eip1559 tx => tx.chain_id

/-- Whether a typed transaction is the legacy wire format. -/
def isLegacyVariant : TypedTransaction → Bool
  | .legacy _ => true
  | _ => false

/-- broadcast.rs `set_chain_id`: stamps the chain id on a legacy or
EIP-1559 transaction and panics (`none`) on any other variant. -/
def set_chain_id (tx : TypedTransaction) (chain_id : Nat) : Option TypedTransaction :=
  match tx with
  | .legacy tx => some (.legacy { tx with chain_id := some chain_id })
  | .eip1559 tx => some (.eip1559 { tx with chain_id := some chain_id })
  | _ => none

/-- broadcast.rs `into_legacy`: unwraps the legacy variant, panics
(`none`) otherwise. -/
def into_legacy (tx : TypedTransaction) : Option TransactionRequest :=
  match tx with
  | .legacy tx => some tx
  | _ => none

/-- broadcast.rs `into_legacy_ref`: as `into_legacy`, by reference. -/
def into_legacy_ref (tx : TypedTransaction) : Option TransactionRequest :=
  match tx with
  | .legacy tx => some tx
  | _ => none

/-- broadcast.rs `into_1559`: converts a legacy request (carrying over
`from`, `to`, `value`, `data`, `nonce`, defaulting the rest), passes an
EIP-1559 request through, and panics (`none`) on any other variant. -/
def into_1559 (tx : TypedTransaction) : Option Eip1559TransactionRequest :=
  match tx with
  | .legacy tx =>
    some { «from» := tx.«from», «to» := tx.«to», gas := none, value := tx.value,
           data := tx.data, nonce := tx.nonce, access_list := [],
           max_priority_fee_per_gas := none, max_fee_per_gas := none,
           chain_id := none }
  | .eip1559 tx => some tx
  | _ => none

/-- The per-transaction shaping step of `send_transactions`:
`if is_legacy { tx } else { TypedTransaction::Eip1559(into_1559(tx)) }`
followed by `set_chain_id(&mut legacy_or_1559, chain)`. `none` models
the wrong-transaction-type panics of the two helpers. -/
def shapeTx (is_legacy : Bool) (chain : Nat) (tx : TypedTransaction) : Option TypedTransaction :=
  match (if is_legacy then some tx else (into_1559 tx).map TypedTransaction.eip1559) with
  | none => none
  | some shaped => set_chain_id shaped chain

/-- Transaction receipt, abstracted to an opaque payload. -/
structure TransactionReceipt where
  id : Nat
deriving DecidableEq

/-- Modelled from the spec: `ScriptSequence` (declared in `crate::cmd`,
whose file is not part of the provided sources) — the persisted plan:
ordered transactions, the cursor `index`, accumulated receipts and the
backing path.  The spec folds cursor advancement into `append_receipt`,
but `send_transactions` increments `index` itself right after calling
`add_receipt`, so `add_receipt` here only appends the receipt. -/
structure ScriptSequence where
  transactions : List TypedTransaction
  index : Nat
  receipts : List TransactionReceipt
  path : String
deriving DecidableEq

/-- Modelled from the spec: `ScriptSequence::add_receipt` appends the
receipt to the receipts list. -/
def ScriptSequence.add_receipt (s : ScriptSequence) (r : TransactionReceipt) : ScriptSequence :=
  { s with receipts := s.receipts ++ [r] }

/-- The two `ScriptArgs` fields `send_transactions` reads besides the
wallet set: the `--legacy` override and `--force-resume`. -/
structure ScriptArgs where
  legacy : Bool
  force_resume : Bool
deriving DecidableEq

/-- Result of `signer.send_transaction(..).await` + awaiting the
pending transaction: `Ok(Some(receipt))`, `Ok(None)` or `Err`. -/
inductive SendResult where
  | ok (receipt : TransactionReceipt)
  | noReceipt
  | err
deriving DecidableEq

/-- The network oracle: chain-id probe result (`none` = probe error),
the ethers chain table lookup
`Chain::try_from(chain).map(Chain::is_legacy).unwrap_or_default()`,
the `foundry_utils::next_nonce` result when processing plan entry `i`
(`none` = query failure), and the submission outcome for plan entry
`i`. -/
structure Env where
  chainId : Option Nat
  isLegacyChain : Nat → Bool
  next_nonce : Nat → Address → Option Nat
  send : Nat → TypedTransaction → SendResult

/-- The distinct `panic!` / `.expect` sites of `send_transactions` and
its helpers. -/
inductive PanicKind where
  | noWallets
  | rangeOutOfBounds
  | wrongTxType
  | missingSender
  | unresolvedSender
  | nonceQueryFailure
  | missingNonce
  | arithmeticOverflow
  | nonceConflict
  | submissionFailed
  | receiptUnavailable
deriving DecidableEq

/-- How a `send_transactions` call ends: normally, with the early `Err`
return of the chain-id probe (`?`), or with a panic. -/
inductive Outcome where
  | success
  | chainProbeError
  | panicked (k : PanicKind)
deriving DecidableEq

/-- The mutable state of a run: the in-memory sequence, the trace of
persisted writes (`save()` calls, in order), the `nonce_offset`
B-tree map, and the trace of submissions handed to the network. -/
structure RunState where
  seq : ScriptSequence
  saved : List ScriptSequence
  nonce_offset : List (Address × Nat)
  sent : List (Nat × TypedTransaction)
deriving DecidableEq

/-- `deployment_sequence.save()`: appends a snapshot of the in-memory
sequence to the persisted-write trace. -/
def saveSeq (st : RunState) : RunState :=
  { st with saved := st.saved ++ [st.seq] }

/-- Result of the nonce-reconciliation block: arithmetic panic (no
save), nonce-conflict panic (save first), or proceed with the corrected
nonce and the offset that produced it. -/
inductive ReconcileOutcome where
  | overflow
  | conflict
  | proceed (corrected : Nat) (offset : Nat)
deriving DecidableEq

/-- The offset computation and nonce check of `send_transactions`:
under `--force-resume` the first query for a sender stores
`nonce - tx_nonce` in `nonce_offset` and later queries reuse the stored
offset; without it the offset is `U256::from(0)`.  Then
`nonce != tx_nonce + offset` is a fatal conflict.  Returns the possibly
updated map together with the outcome. -/
def reconcile (force_resume : Bool) (table : List (Address × Nat)) (sender : Address)
    (nonce tx_nonce : Nat) : List (Address × Nat) × ReconcileOutcome :=
  match (if force_resume then
           match table.lookup sender with
           | some offset => some (offset, table)
           | none => (u256_sub nonce tx_nonce).map (fun offset => (offset, (sender, offset) :: table))
         else some (0, table)) with
  | none => (table, .overflow)
  | some (offset, table2) =>
    match u256_add tx_nonce offset with
    | none => (table2, .overflow)
    | some corrected =>
      if nonce ≠ corrected then (table2, .conflict)
      else (table2, .proceed corrected offset)

/-- One element of the `map(..).for_each(..)` pipeline of
`send_transactions`, processing the plan entry at index `i`: the `map`
closure extracts the sender via `into_legacy_ref(tx).from.expect(..)`
and resolves it against the wallets; the `for_each` closure shapes the
transaction, stamps the chain id, queries the authoritative nonce,
reconciles it, submits, and on a receipt appends it and advances the
cursor.  Returns the updated state and `none` to continue to the next
entry or `some k` when panic `k` aborts the run. -/
def processTx (args : ScriptArgs) (wallets : List Address) (is_legacy : Bool) (chain : Nat)
    (env : Env) (i : Nat) (tx : TypedTransaction) (st : RunState) :
    RunState × Option PanicKind :=
  match into_legacy_ref tx with
  | none => (st, some .wrongTxType)
  | some ltx =>
    match ltx.«from» with
    | none => (st, some .missingSender)
    | some sender =>
      if wallets.contains sender then
        match shapeTx is_legacy chain tx with
        | none => (st, some .wrongTxType)
        | some shaped =>
          match shaped.sender with
          | none => (st, some .missingSender)
          | some sender2 =>
            match env.next_nonce i sender2 with
            | none => (saveSeq st, some .nonceQueryFailure)
            | some nonce =>
              match shaped.nonce with
              | none => (st, some .missingNonce)
              | some tx_nonce =>
                match reconcile args.force_resume st.nonce_offset sender2 nonce tx_nonce with
                | (table2, .overflow) =>
                  ({ st with nonce_offset := table2 }, some .arithmeticOverflow)
                | (table2, .conflict) =>
                  (saveSeq { st with nonce_offset := table2 }, some .nonceConflict)
                | (table2, .proceed corrected offset) =>
                  let finalTx := if offset ≠ 0 then shaped.set_nonce corrected else shaped
                  let st2 :=
                    { st with
                        nonce_offset := table2
                        sent := st.sent ++ [(i, finalTx)] }
                  match env.send i finalTx with
                  | .ok receipt =>
                    ({ st2 with seq := { st2.seq.add_receipt receipt with
                                         index := st2.seq.index + 1 } }, none)
                  | .noReceipt => (saveSeq st2, some .receiptUnavailable)
                  | .err => (saveSeq st2, some .submissionFailed)
      else (saveSeq st, some .unresolvedSender)

/-- The iteration of `send_transactions` over the plan entries at or
after the starting cursor; when every entry completes, the final
`deployment_sequence.save()?` runs and the call reports success. -/
def runLoop (args : ScriptArgs) (wallets : List Address) (is_legacy : Bool) (chain : Nat)
    (env : Env) : List (Nat × TypedTransaction) → RunState → RunState × Outcome
  | [], st => (saveSeq st, .success)
  | (i, tx) :: rest, st =>
    match processTx args wallets is_legacy chain env i tx st with
    | (st2, none) => runLoop args wallets is_legacy chain env rest st2
    | (st2, some k) => (st2, .panicked k)

/-- Plan entries paired with their plan indices, starting at `k`
(models `transactions.range(index..)` keeping the absolute index). -/
def enumFrom (k : Nat) : List TypedTransaction → List (Nat × TypedTransaction)
  | [] => []
  | tx :: txs => (k, tx) :: enumFrom (k + 1) txs

/-- The run state at entry to `send_transactions`: the loaded sequence,
no persisted write yet, an empty `nonce_offset` map, nothing sent. -/
def initState (seq0 : ScriptSequence) : RunState :=
  { seq := seq0, saved := [], nonce_offset := [], sent := [] }

/-- `ScriptArgs::send_transactions`: gathers wallets (panicking when
none), probes the chain id (`?` on failure), classifies the fee model
as `self.legacy || Chain::try_from(chain).map(Chain::is_legacy).unwrap_or_default()`,
and iterates the cloned sequence's transactions from the current cursor
(`VecDeque::range` panics when the cursor is past the end). -/
def send_transactions (args : ScriptArgs) (wallets : List Address) (env : Env)
    (seq0 : ScriptSequence) : RunState × Outcome :=
  if wallets.isEmpty then (initState seq0, .panicked .noWallets)
  else
    match env.chainId with
    | none => (initState seq0, .chainProbeError)
    | some chain =>
      if seq0.transactions.length < seq0.index then
        (initState seq0, .panicked .rangeOutOfBounds)
      else
        runLoop args wallets (args.legacy || env.isLegacyChain chain) chain env
          (enumFrom seq0.index (seq0.transactions.drop seq0.index)) (initState seq0)

/-- Legacy transaction literal used by the concrete-run theorems:
sender `sender`, planned nonce `n`. -/
def mkLegacyTx (sender n : Nat) : TypedTransaction :=
  .legacy { «from» := some sender, «to» := some 2, gas := none, gas_price := none,
            value := some 0, data := none, nonce := some n, chain_id := none }

/-- Environment of the C1 counterexample run: chain id 5, modern fee
model, authoritative nonce `i` at entry `i`, every submission confirmed. -/
def c1env : Env :=
  { chainId := some 5, isLegacyChain := fun _ => false,
    next_nonce := fun i _ => some i, send := fun i _ => .ok ⟨i⟩ }

/-- Two-entry plan of the C1 counterexample run. -/
def c1seq : ScriptSequence :=
  { transactions := [mkLegacyTx 1 0, mkLegacyTx 1 1], index := 0, receipts := [],
    path := "run.json" }

/-- Plan indices `k, k+1, ..., k+n-1`. -/
def idxRange (k n : Nat) : List Nat :=
  match n with
  | 0 => []
  | Nat.succ m => k :: idxRange (k + 1) m

/-- Environment of the C2 witness run (the sender of the only plan
entry has no matching wallet). -/
def c2env : Env :=
  { chainId := some 5, isLegacyChain := fun _ => false,
    next_nonce := fun i _ => some i, send := fun i _ => .ok ⟨i⟩ }

/-- One-entry plan of the C2 witness run, sent from address 1. -/
def c2seq : ScriptSequence :=
  { transactions := [mkLegacyTx 1 0], index := 0, receipts := [], path := "run.json" }

/-- Environment of the C3 counterexample run: the authoritative nonce
for the first entry matches its planned nonce 5, the second entry sees
authoritative nonce 9 against planned nonce 6 — the sender's first
mismatch of the run. -/
def c3env : Env :=
  { chainId := some 10, isLegacyChain := fun _ => false,
    next_nonce := fun i _ => if i == 0 then some 5 else some 9,
    send := fun i _ => .ok ⟨i⟩ }

/-- Two-entry plan of the C3 counterexample run: planned nonces 5 and 6
from sender 1. -/
def c3seq : ScriptSequence :=
  { transactions := [mkLegacyTx 1 5, mkLegacyTx 1 6], index := 0, receipts := [],
    path := "run.json" }

/-- Environment of the C4 witness run: authoritative nonce 9 against
planned nonce 7, resume mode off. -/
def c4env : Env :=
  { chainId := some 5, isLegacyChain := fun _ => false,
    next_nonce := fun _ _ => some 9, send := fun i _ => .ok ⟨i⟩ }

/-- The legacy request of the C4/C9 witness entries: sender 1, planned
nonce 7. -/
def c4ltx : TransactionRequest :=
  { «from» := some 1, «to» := some 2, gas := none, gas_price := none,
    value := some 0, data := none, nonce := some 7, chain_id := none }

/-- One-entry plan for the C4 witness run. -/
def c4seq : ScriptSequence :=
  { transactions := [.legacy c4ltx], index := 0, receipts := [], path := "run.json" }

/-- Environment of the C9 witness run: authoritative nonce 3 behind the
planned nonce 7, resume mode on. -/
def c9env : Env :=
  { chainId := some 5, isLegacyChain := fun _ => false,
    next_nonce := fun _ _ => some 3, send := fun i _ => .ok ⟨i⟩ }

/-- The panic sites of a loop iteration that fire before any
`deployment_sequence.save()`. -/
def kindNoSaveStep (k : PanicKind) : Prop :=
  k = .wrongTxType ∨ k = .missingSender ∨ k = .missingNonce ∨ k = .arithmeticOverflow

/-- The panic sites of a loop iteration that `save()` the sequence
first. -/
def kindSaveStep (k : PanicKind) : Prop :=
  k = .unresolvedSender ∨ k = .nonceQueryFailure ∨ k = .nonceConflict ∨
    k = .submissionFailed ∨ k = .receiptUnavailable

theorem shapeTx_legacy (il : Bool) (ch : Nat) (ltx : TransactionRequest) :
    ∃ shaped, shapeTx il ch (.legacy ltx) = some shaped ∧
      isLegacyVariant shaped = il ∧ shaped.sender = ltx.«from» ∧ shaped.nonce = ltx.nonce := by
  cases il <;> exact ⟨_, rfl, rfl, rfl, rfl⟩

theorem set_nonce_variant (t : TypedTransaction) (n : Nat) :
    isLegacyVariant (t.set_nonce n) = isLegacyVariant t := by
  cases t <;> rfl

/-- Exhaustive characterization of one loop iteration: it either
completes the entry (appending exactly one receipt, advancing the
cursor by one, recording exactly one submission shaped for the run's
fee model, and performing no save), or it aborts with a panic that does
not save (leaving sequence, saved trace and submissions untouched), or
it aborts with a panic whose last action is a save of the unmodified
in-memory sequence. -/
theorem processTx_spec (args : ScriptArgs) (wallets : List Address) (il : Bool) (ch : Nat)
    (env : Env) (i : Nat) (tx : TypedTransaction) (st : RunState) :
    (∃ table2 p r, isLegacyVariant p = il ∧
        processTx args wallets il ch env i tx st =
          ({ st with
               nonce_offset := table2
               sent := st.sent ++ [(i, p)]
               seq := { st.seq with
                          receipts := st.seq.receipts ++ [r]
                          index := st.seq.index + 1 } }, none))
  ∨ (∃ k table2, kindNoSaveStep k ∧
        processTx args wallets il ch env i tx st = ({ st with nonce_offset := table2 }, some k))
  ∨ (∃ k table2 ext, kindSaveStep k ∧
        (ext = [] ∨ ∃ p, isLegacyVariant p = il ∧ ext = [(i, p)]) ∧
        processTx args wallets il ch env i tx st =
          (saveSeq { st with nonce_offset := table2, sent := st.sent ++ ext }, some k)) := by
  cases tx with
  | eip2930 t al =>
    exact Or.inr (Or.inl ⟨.wrongTxType, st.nonce_offset, Or.inl rfl, rfl⟩)
  | eip1559 e =>
    exact Or.inr (Or.inl ⟨.wrongTxType, st.nonce_offset, Or.inl rfl, rfl⟩)
  | legacy ltx =>
    obtain ⟨shaped, hsh, hvar, hsen, hnon⟩ := shapeTx_legacy il ch ltx
    cases hf : ltx.«from» with
    | none =>
      refine Or.inr (Or.inl ⟨.missingSender, st.nonce_offset, Or.inr (Or.inl rfl), ?_⟩)
      simp [processTx, into_legacy_ref, hf]
    | some sender =>
      by_cases hw : wallets.contains sender
      · have hw2 : sender ∈ wallets := by simpa using hw
        rw [hf] at hsen
        cases hq : env.next_nonce i sender with
        | none =>
          refine Or.inr (Or.inr ⟨.nonceQueryFailure, st.nonce_offset, [], Or.inr (Or.inl rfl),
            Or.inl rfl, ?_⟩)
          simp [processTx, into_legacy_ref, hf, hw, hsh, hsen, hq, hw2, saveSeq]
        | some nonce =>
          cases hn : ltx.nonce with
          | none =>
            refine Or.inr (Or.inl ⟨.missingNonce, st.nonce_offset, Or.inr (Or.inr (Or.inl rfl)), ?_⟩)
            rw [hn] at hnon
            simp [processTx, into_legacy_ref, hf, hw, hsh, hsen, hq, hnon, hw2]
          | some tx_nonce =>
            rw [hn] at hnon
            rcases hr : reconcile args.force_resume st.nonce_offset sender nonce tx_nonce with
              ⟨table2, out⟩
            cases out with
            | overflow =>
              refine Or.inr (Or.inl ⟨.arithmeticOverflow, table2, Or.inr (Or.inr (Or.inr rfl)), ?_⟩)
              simp [processTx, into_legacy_ref, hf, hw, hsh, hsen, hq, hnon, hr, hw2]
            | conflict =>
              refine Or.inr (Or.inr ⟨.nonceConflict, table2, [], Or.inr (Or.inr (Or.inl rfl)),
                Or.inl rfl, ?_⟩)
              simp [processTx, into_legacy_ref, hf, hw, hsh, hsen, hq, hnon, hr, hw2, saveSeq]
            | proceed corrected offset =>
              have hvar2 : isLegacyVariant (if offset = 0 then shaped else shaped.set_nonce corrected) = il := by
                split <;> simp [set_nonce_variant, hvar]
              cases hs : env.send i (if offset = 0 then shaped else shaped.set_nonce corrected) with
              | ok receipt =>
                refine Or.inl ⟨table2, _, receipt, hvar2, ?_⟩
                simp [processTx, into_legacy_ref, hf, hw, hsh, hsen, hq, hnon, hr, hs, hw2,
                  ScriptSequence.add_receipt]
              | noReceipt =>
                refine Or.inr (Or.inr ⟨.receiptUnavailable, table2, [(i, _)],
                  Or.inr (Or.inr (Or.inr (Or.inr rfl))), Or.inr ⟨_, hvar2, rfl⟩, ?_⟩)
                simp [processTx, into_legacy_ref, hf, hw, hsh, hsen, hq, hnon, hr, hs, hw2, saveSeq]
              | err =>
                refine Or.inr (Or.inr ⟨.submissionFailed, table2, [(i, _)],
                  Or.inr (Or.inr (Or.inr (Or.inl rfl))), Or.inr ⟨_, hvar2, rfl⟩, ?_⟩)
                simp [processTx, into_legacy_ref, hf, hw, hsh, hsen, hq, hnon, hr, hs, hw2, saveSeq]
      · have hw2 : ¬ sender ∈ wallets := by simpa using hw
        refine Or.inr (Or.inr ⟨.unresolvedSender, st.nonce_offset, [], Or.inl rfl, Or.inl rfl, ?_⟩)
        simp [processTx, into_legacy_ref, hf, hw2, saveSeq]

theorem runLoop_success_saved (args : ScriptArgs) (wallets : List Address) (il : Bool)
    (ch : Nat) (env : Env) :
    ∀ (entries : List (Nat × TypedTransaction)) (st st2 : RunState),
      runLoop args wallets il ch env entries st = (st2, .success) →
      st2.saved = st.saved ++ [st2.seq] := by
  intro entries
  induction entries with
  | nil =>
    intro st st2 h
    simp only [runLoop, Prod.mk.injEq] at h
    rw [← h.1]
    simp [saveSeq]
  | cons e rest ih =>
    intro st st2 h
    obtain ⟨i, tx⟩ := e
    rcases processTx_spec args wallets il ch env i tx st with
      ⟨t2, p, r, hv, heq⟩ | ⟨k, t2, hk, heq⟩ | ⟨k, t2, ext, hk, hext, heq⟩
    · simp only [runLoop, heq] at h
      have h3 := ih _ _ h
      simpa using h3
    · simp only [runLoop, heq, Prod.mk.injEq] at h
      exact absurd h.2 (by simp)
    · simp only [runLoop, heq, Prod.mk.injEq] at h
      exact absurd h.2 (by simp)

theorem runLoop_panic_saved (args : ScriptArgs) (wallets : List Address) (il : Bool)
    (ch : Nat) (env : Env) :
    ∀ (entries : List (Nat × TypedTransaction)) (st st2 : RunState) (k : PanicKind),
      runLoop args wallets il ch env entries st = (st2, .panicked k) →
      kindSaveStep k →
      st2.saved.getLast? = some st2.seq := by
  intro entries
  induction entries with
  | nil =>
    intro st st2 k h
    simp [runLoop] at h
  | cons e rest ih =>
    intro st st2 k h hk
    obtain ⟨i, tx⟩ := e
    rcases processTx_spec args wallets il ch env i tx st with
      ⟨t2, p, r, hv, heq⟩ | ⟨k2, t2, hk2, heq⟩ | ⟨k2, t2, ext, hk2, hext, heq⟩
    · simp only [runLoop, heq] at h
      exact ih _ _ _ h hk
    · simp only [runLoop, heq, Prod.mk.injEq, Outcome.panicked.injEq] at h
      rw [← h.2] at hk
      rcases hk2 with h2 | h2 | h2 | h2 <;> rw [h2] at hk <;>
        rcases hk with h3 | h3 | h3 | h3 | h3 <;> simp at h3
    · simp only [runLoop, heq, Prod.mk.injEq] at h
      rw [← h.1]
      simp [saveSeq]

theorem send_transactions_cases (args : ScriptArgs) (wallets : List Address) (env : Env)
    (seq0 : ScriptSequence) :
    (send_transactions args wallets env seq0 = (initState seq0, .panicked .noWallets))
  ∨ (send_transactions args wallets env seq0 = (initState seq0, .chainProbeError))
  ∨ (send_transactions args wallets env seq0 = (initState seq0, .panicked .rangeOutOfBounds))
  ∨ (∃ chain, env.chainId = some chain ∧
       send_transactions args wallets env seq0 =
         runLoop args wallets (args.legacy || env.isLegacyChain chain) chain env
           (enumFrom seq0.index (seq0.transactions.drop seq0.index)) (initState seq0)) := by
  unfold send_transactions
  split
  · exact Or.inl rfl
  · split
    next hc => exact Or.inr (Or.inl rfl)
    next chain hc =>
      split
      next => exact Or.inr (Or.inr (Or.inl rfl))
      next => exact Or.inr (Or.inr (Or.inr ⟨chain, hc, rfl⟩))

/-- C1, as stated, is false on the code: in a run where two
transactions complete successfully (final cursor 2), the persisted-write
trace holds exactly one snapshot, the final one with cursor 2 — no save
happened after the first entry's receipt was appended and its cursor
increment, before the loop proceeded to the second entry (a save there
would have persisted a snapshot with cursor 1). -/
theorem c1_counterexample :
    (send_transactions ⟨false, false⟩ [1] c1env c1seq).2 = .success
  ∧ (send_transactions ⟨false, false⟩ [1] c1env c1seq).1.seq.index = 2
  ∧ (send_transactions ⟨false, false⟩ [1] c1env c1seq).1.saved.map ScriptSequence.index
      = [2] := by
  refine ⟨by decide, by decide, by decide⟩

/-- C1 (amended): for every transaction that completes successfully,
its receipt is appended to the in-memory sequence and the cursor is
incremented, but the sequence is persisted only once, after the loop
over all remaining plan entries completes — on a successful run the
persisted-write trace is exactly the single final snapshot, not one
write per entry. -/
theorem c1_single_final_save (args : ScriptArgs) (wallets : List Address) (env : Env)
    (seq0 : ScriptSequence)
    (h : (send_transactions args wallets env seq0).2 = .success) :
    (send_transactions args wallets env seq0).1.saved
      = [(send_transactions args wallets env seq0).1.seq] := by
  rcases send_transactions_cases args wallets env seq0 with hc | hc | hc | ⟨chain, hch, hc⟩ <;>
    rw [hc] at h ⊢
  · simp at h
  · simp at h
  · simp at h
  · rcases hrun : runLoop args wallets (args.legacy || env.isLegacyChain chain) chain env
        (enumFrom seq0.index (seq0.transactions.drop seq0.index)) (initState seq0) with ⟨st2, out⟩
    rw [hrun] at h
    cases out with
    | success =>
      have h2 := runLoop_success_saved args wallets (args.legacy || env.isLegacyChain chain)
        chain env _ _ _ hrun
      simpa [initState] using h2
    | chainProbeError => exact absurd h (by simp)
    | panicked k => exact absurd h (by simp)

/-- C1 (witness): the amended statement at the concrete successful
two-entry run. -/
theorem c1_single_final_save_witness :
    (send_transactions ⟨false, false⟩ [1] c1env c1seq).1.saved
      = [(send_transactions ⟨false, false⟩ [1] c1env c1seq).1.seq] :=
  c1_single_final_save ⟨false, false⟩ [1] c1env c1seq (by decide)

theorem runLoop_cons_abort (args : ScriptArgs) (wallets : List Address) (il : Bool)
    (ch : Nat) (env : Env) (i : Nat) (tx : TypedTransaction)
    (rest : List (Nat × TypedTransaction)) (st st2 : RunState) (k : PanicKind)
    (h : processTx args wallets il ch env i tx st = (st2, some k)) :
    runLoop args wallets il ch env ((i, tx) :: rest) st = (st2, .panicked k) := by
  simp [runLoop, h]

theorem processTx_conflict (args : ScriptArgs) (wallets : List Address) (il : Bool)
    (ch : Nat) (env : Env) (i : Nat) (ltx : TransactionRequest) (st : RunState)
    (table2 : List (Address × Nat)) (a : Address) (n_auth n_pl : Nat)
    (hf : ltx.«from» = some a) (hw : wallets.contains a = true)
    (hn : ltx.nonce = some n_pl) (hq : env.next_nonce i a = some n_auth)
    (hr : reconcile args.force_resume st.nonce_offset a n_auth n_pl = (table2, .conflict)) :
    processTx args wallets il ch env i (.legacy ltx) st
      = (saveSeq { st with nonce_offset := table2 }, some .nonceConflict) := by
  obtain ⟨shaped, hsh, hvar, hsen, hnon⟩ := shapeTx_legacy il ch ltx
  rw [hf] at hsen
  rw [hn] at hnon
  have hw2 : a ∈ wallets := by simpa using hw
  simp [processTx, into_legacy_ref, hf, hw2, hsh, hsen, hq, hnon, hr]

theorem processTx_overflow (args : ScriptArgs) (wallets : List Address) (il : Bool)
    (ch : Nat) (env : Env) (i : Nat) (ltx : TransactionRequest) (st : RunState)
    (table2 : List (Address × Nat)) (a : Address) (n_auth n_pl : Nat)
    (hf : ltx.«from» = some a) (hw : wallets.contains a = true)
    (hn : ltx.nonce = some n_pl) (hq : env.next_nonce i a = some n_auth)
    (hr : reconcile args.force_resume st.nonce_offset a n_auth n_pl = (table2, .overflow)) :
    processTx args wallets il ch env i (.legacy ltx) st
      = ({ st with nonce_offset := table2 }, some .arithmeticOverflow) := by
  obtain ⟨shaped, hsh, hvar, hsen, hnon⟩ := shapeTx_legacy il ch ltx
  rw [hf] at hsen
  rw [hn] at hnon
  have hw2 : a ∈ wallets := by simpa using hw
  simp [processTx, into_legacy_ref, hf, hw2, hsh, hsen, hq, hnon, hr]

/-- C2: for every fatal condition of the enumerated taxonomy —
unresolved sender, nonce query failure, nonce conflict, submission
failure, receipt unavailable — the engine's last action before the
aborting panic is a persisted write of the deployment sequence: the
persisted-write trace is non-empty and its last snapshot is exactly the
in-memory sequence at the moment of the abort. -/
theorem c2_fatal_persists_store (args : ScriptArgs) (wallets : List Address) (env : Env)
    (seq0 : ScriptSequence) (k : PanicKind)
    (h : (send_transactions args wallets env seq0).2 = .panicked k)
    (hk : k = .unresolvedSender ∨ k = .nonceQueryFailure ∨ k = .nonceConflict ∨
          k = .submissionFailed ∨ k = .receiptUnavailable) :
    (send_transactions args wallets env seq0).1.saved.getLast?
      = some (send_transactions args wallets env seq0).1.seq := by
  rcases send_transactions_cases args wallets env seq0 with hc | hc | hc | ⟨chain, hch, hc⟩ <;>
    rw [hc] at h ⊢
  · simp only [Outcome.panicked.injEq] at h
    rw [← h] at hk
    rcases hk with h2 | h2 | h2 | h2 | h2 <;> simp at h2
  · simp at h
  · simp only [Outcome.panicked.injEq] at h
    rw [← h] at hk
    rcases hk with h2 | h2 | h2 | h2 | h2 <;> simp at h2
  · rcases hrun : runLoop args wallets (args.legacy || env.isLegacyChain chain) chain env
        (enumFrom seq0.index (seq0.transactions.drop seq0.index)) (initState seq0) with ⟨st2, out⟩
    rw [hrun] at h
    cases out with
    | success => exact absurd h (by simp)
    | chainProbeError => exact absurd h (by simp)
    | panicked k2 =>
      simp only [Outcome.panicked.injEq] at h
      rw [h] at hrun
      exact runLoop_panic_saved args wallets (args.legacy || env.isLegacyChain chain)
        chain env _ _ _ _ hrun hk

/-- C2 (witness): the persisted-write guarantee at a concrete run that
aborts with an unresolved sender (the only wallet is address 2, the
plan entry's sender is address 1). -/
theorem c2_fatal_persists_store_witness :
    (send_transactions ⟨false, false⟩ [2] c2env c2seq).1.saved.getLast?
      = some (send_transactions ⟨false, false⟩ [2] c2env c2seq).1.seq :=
  c2_fatal_persists_store ⟨false, false⟩ [2] c2env c2seq .unresolvedSender (by decide)
    (Or.inl rfl)

theorem runLoop_saved_ok (args : ScriptArgs) (wallets : List Address) (il : Bool)
    (ch : Nat) (env : Env) :
    ∀ (entries : List (Nat × TypedTransaction)) (st st2 : RunState) (out : Outcome),
      runLoop args wallets il ch env entries st = (st2, out) →
      st.seq.receipts.length = st.seq.index →
      (∀ s ∈ st.saved, s.receipts.length = s.index) →
      st2.seq.receipts.length = st2.seq.index ∧
        ∀ s ∈ st2.saved, s.receipts.length = s.index := by
  intro entries
  induction entries with
  | nil =>
    intro st st2 out h hseq hsaved
    simp only [runLoop, Prod.mk.injEq] at h
    rw [← h.1]
    refine ⟨hseq, ?_⟩
    intro s hs
    simp only [saveSeq, List.mem_append, List.mem_singleton] at hs
    rcases hs with hs | hs
    · exact hsaved s hs
    · rw [hs]; exact hseq
  | cons e rest ih =>
    intro st st2 out h hseq hsaved
    obtain ⟨i, tx⟩ := e
    rcases processTx_spec args wallets il ch env i tx st with
      ⟨t2, p, r, hv, heq⟩ | ⟨k, t2, hk, heq⟩ | ⟨k, t2, ext, hk, hext, heq⟩
    · simp only [runLoop, heq] at h
      refine ih _ st2 out h ?_ hsaved
      simp [hseq]
    · simp only [runLoop, heq, Prod.mk.injEq] at h
      rw [← h.1]
      exact ⟨hseq, hsaved⟩
    · simp only [runLoop, heq, Prod.mk.injEq] at h
      rw [← h.1]
      refine ⟨hseq, ?_⟩
      intro s hs
      simp only [saveSeq, List.mem_append, List.mem_singleton] at hs
      rcases hs with hs | hs
      · exact hsaved s hs
      · rw [hs]; exact hseq

/-- C5: the invariant `len(receipts) == index` holds for every
persisted write of a run started from a sequence satisfying it (the
external planner supplies `index = 0` with no receipts, and any resumed
store is itself a persisted write): receipts are appended and the
cursor incremented together on completion, and every fatal save happens
before the failing entry could append its receipt, so each persisted
snapshot's cursor equals its number of recorded receipts. -/
theorem c5_persisted_receipts_eq_index (args : ScriptArgs) (wallets : List Address)
    (env : Env) (seq0 : ScriptSequence)
    (h : seq0.receipts.length = seq0.index) :
    ((send_transactions args wallets env seq0).1.saved.all
       (fun s => s.receipts.length == s.index)) = true := by
  rcases send_transactions_cases args wallets env seq0 with hc | hc | hc | ⟨chain, hch, hc⟩ <;>
    rw [hc]
  · rfl
  · rfl
  · rfl
  · rcases hrun : runLoop args wallets (args.legacy || env.isLegacyChain chain) chain env
        (enumFrom seq0.index (seq0.transactions.drop seq0.index)) (initState seq0) with ⟨st2, out⟩
    have h2 := runLoop_saved_ok args wallets (args.legacy || env.isLegacyChain chain)
      chain env _ _ _ _ hrun (by simpa [initState] using h) (by simp [initState])
    simp only [List.all_eq_true]
    intro s hs
    simpa using h2.2 s hs

/-- C5 (witness): the invariant at the concrete two-entry successful
run. -/
theorem c5_persisted_receipts_eq_index_witness :
    ((send_transactions ⟨false, false⟩ [1] c1env c1seq).1.saved.all
       (fun s => s.receipts.length == s.index)) = true :=
  c5_persisted_receipts_eq_index ⟨false, false⟩ [1] c1env c1seq (by decide)

theorem isPrefixOf_of_append : ∀ (l1 t l2 : List Nat), l1 ++ t = l2 → l1.isPrefixOf l2 = true := by
  intro l1
  induction l1 with
  | nil => intro t l2 h; simp [List.isPrefixOf]
  | cons a as ih =>
    intro t l2 h
    cases l2 with
    | nil => simp at h
    | cons b bs =>
      simp only [List.cons_append, List.cons.injEq] at h
      simp [List.isPrefixOf, h.1, ih t bs h.2]

theorem runLoop_sent_idx (args : ScriptArgs) (wallets : List Address) (il : Bool)
    (ch : Nat) (env : Env) :
    ∀ (txs : List TypedTransaction) (k : Nat) (st : RunState),
      ∃ l, (runLoop args wallets il ch env (enumFrom k txs) st).1.sent = st.sent ++ l
        ∧ (∃ t, l.map Prod.fst ++ t = idxRange k txs.length)
        ∧ ((runLoop args wallets il ch env (enumFrom k txs) st).2 = .success →
            l.map Prod.fst = idxRange k txs.length) := by
  intro txs
  induction txs with
  | nil =>
    intro k st
    refine ⟨[], by simp [enumFrom, runLoop, saveSeq], ⟨[], rfl⟩, fun _ => rfl⟩
  | cons tx txs ih =>
    intro k st
    rcases processTx_spec args wallets il ch env k tx st with
      ⟨t2, p, r, hv, heq⟩ | ⟨k2, t2, hk2, heq⟩ | ⟨k2, t2, ext, hk2, hext, heq⟩
    · obtain ⟨l, hsent, ⟨t, hpre⟩, hsucc⟩ := ih (k + 1)
        { st with
            nonce_offset := t2
            sent := st.sent ++ [(k, p)]
            seq := { st.seq with
                       receipts := st.seq.receipts ++ [r]
                       index := st.seq.index + 1 } }
      refine ⟨(k, p) :: l, ?_, ⟨t, ?_⟩, ?_⟩
      · simp only [enumFrom, runLoop, heq]
        simpa using hsent
      · simpa [idxRange] using hpre
      · intro hs
        simp only [enumFrom, runLoop, heq] at hs
        simpa [idxRange] using hsucc hs
    · refine ⟨[], ?_, ⟨idxRange k (tx :: txs).length, rfl⟩, ?_⟩
      · simp only [enumFrom, runLoop, heq]
        simp
      · intro hs
        simp only [enumFrom, runLoop, heq] at hs
        exact absurd hs (by simp)
    · refine ⟨ext, ?_, ?_, ?_⟩
      · simp only [enumFrom, runLoop, heq]
        simp [saveSeq]
      · rcases hext with hext | ⟨p, hv, hext⟩
        · exact ⟨idxRange k (tx :: txs).length, by simp [hext]⟩
        · exact ⟨idxRange (k + 1) txs.length, by simp [hext, idxRange]⟩
      · intro hs
        simp only [enumFrom, runLoop, heq] at hs
        exact absurd hs (by simp)

/-- C6: a run submits transactions only for plan entries at or after
the starting cursor, in ascending plan order and at most once each (the
submitted plan indices are a prefix of `cursor, cursor+1, ...,
len(plan)-1`), and a run that completes successfully submits exactly
the entries from the cursor to the end of the plan; entries before the
cursor are never re-submitted. -/
theorem c6_resumes_at_cursor (args : ScriptArgs) (wallets : List Address) (env : Env)
    (seq0 : ScriptSequence) :
    (((send_transactions args wallets env seq0).1.sent.map Prod.fst).isPrefixOf
        (idxRange seq0.index (seq0.transactions.length - seq0.index)) = true)
  ∧ ((send_transactions args wallets env seq0).2 = .success →
      (send_transactions args wallets env seq0).1.sent.map Prod.fst
        = idxRange seq0.index (seq0.transactions.length - seq0.index)) := by
  rcases send_transactions_cases args wallets env seq0 with hc | hc | hc | ⟨chain, hch, hc⟩ <;>
    rw [hc]
  · exact ⟨by simp [initState, List.isPrefixOf], fun hs => absurd hs (by simp)⟩
  · exact ⟨by simp [initState, List.isPrefixOf], fun hs => absurd hs (by simp)⟩
  · exact ⟨by simp [initState, List.isPrefixOf], fun hs => absurd hs (by simp)⟩
  · obtain ⟨l, hsent, ⟨t, hpre⟩, hsucc⟩ :=
      runLoop_sent_idx args wallets (args.legacy || env.isLegacyChain chain) chain env
        (seq0.transactions.drop seq0.index) seq0.index (initState seq0)
    rw [List.length_drop] at hpre hsucc
    constructor
    · rw [hsent]
      simp only [initState, List.nil_append]
      exact isPrefixOf_of_append _ t _ hpre
    · intro hs
      rw [hsent]
      simp only [initState, List.nil_append]
      exact hsucc hs

/-- C7: under a profile with `legacy = true` the shaped transaction is
the legacy wire format with the chain id stamped; with `legacy = false`
it is the EIP-1559 dynamic-fee format carrying over sender, recipient,
value, payload and nonce (all other fields defaulted); in both cases
the stamped chain identifier equals the probed chain identifier. -/
theorem c7_shape_selection (ltx : TransactionRequest) (chain : Nat) :
    shapeTx true chain (.legacy ltx) = some (.legacy { ltx with chain_id := some chain })
  ∧ shapeTx false chain (.legacy ltx) = some (.eip1559
      { «from» := ltx.«from», «to» := ltx.«to», gas := none, value := ltx.value,
        data := ltx.data, nonce := ltx.nonce, access_list := [],
        max_priority_fee_per_gas := none, max_fee_per_gas := none,
        chain_id := some chain })
  ∧ (∀ il : Bool, (shapeTx il chain (.legacy ltx)).map TypedTransaction.chainId
       = some (some chain)) := by
  refine ⟨rfl, rfl, ?_⟩
  intro il
  cases il <;> rfl

theorem runLoop_sent_variant (args : ScriptArgs) (wallets : List Address) (il : Bool)
    (ch : Nat) (env : Env) :
    ∀ (entries : List (Nat × TypedTransaction)) (st : RunState),
      (∀ p ∈ st.sent, isLegacyVariant p.2 = il) →
      ∀ p ∈ (runLoop args wallets il ch env entries st).1.sent, isLegacyVariant p.2 = il := by
  intro entries
  induction entries with
  | nil =>
    intro st hst
    simpa [runLoop, saveSeq] using hst
  | cons e rest ih =>
    intro st hst
    obtain ⟨i, tx⟩ := e
    rcases processTx_spec args wallets il ch env i tx st with
      ⟨t2, p, r, hv, heq⟩ | ⟨k2, t2, hk2, heq⟩ | ⟨k2, t2, ext, hk2, hext, heq⟩
    · simp only [runLoop, heq]
      apply ih
      intro q hq
      simp only [List.mem_append, List.mem_singleton] at hq
      rcases hq with hq | hq
      · exact hst q hq
      · rw [hq]; exact hv
    · simp only [runLoop, heq]
      exact hst
    · simp only [runLoop, heq]
      intro q hq
      simp only [saveSeq, List.mem_append] at hq
      rcases hq with hq | hq
      · exact hst q hq
      · rcases hext with hext | ⟨p, hv, hext⟩
        · rw [hext] at hq; simp at hq
        · rw [hext] at hq
          simp only [List.mem_singleton] at hq
          rw [hq]; exact hv

/-- C8: the run's legacy fee-model classification is
`self.legacy || Chain::try_from(chain).map(Chain::is_legacy).unwrap_or_default()`
— the caller's explicit override OR'd with the chain-table lookup of
the probed chain identifier: every transaction the run submits is the
legacy wire format exactly when that disjunction holds. -/
theorem c8_legacy_override_or_chain_table (args : ScriptArgs) (wallets : List Address)
    (env : Env) (seq0 : ScriptSequence) (chain : Nat)
    (h : env.chainId = some chain) :
    ((send_transactions args wallets env seq0).1.sent.all
       (fun p => isLegacyVariant p.2 == (args.legacy || env.isLegacyChain chain))) = true := by
  rcases send_transactions_cases args wallets env seq0 with hc | hc | hc | ⟨chain2, hch, hc⟩ <;>
    rw [hc]
  · rfl
  · rfl
  · rfl
  · have hcc : chain2 = chain := by
      rw [hch] at h
      injection h
    rw [hcc] at hc ⊢
    simp only [List.all_eq_true]
    intro p hp
    have hv := runLoop_sent_variant args wallets (args.legacy || env.isLegacyChain chain)
      chain env _ (initState seq0) (by simp [initState]) p hp
    simp [hv]

/-- C8 (witness): the classification at the concrete successful run
(override off, chain not in the legacy table, all submissions
EIP-1559). -/
theorem c8_legacy_override_or_chain_table_witness :
    ((send_transactions ⟨false, false⟩ [1] c1env c1seq).1.sent.all
       (fun p => isLegacyVariant p.2 == (false || c1env.isLegacyChain 5))) = true :=
  c8_legacy_override_or_chain_table ⟨false, false⟩ [1] c1env c1seq 5 rfl

/-- C3, as stated, is false on the code: the correction offset is not
computed at the first *mismatch* observed for a sender.  In the
concrete run below, sender 1's first entry sees a matching nonce
(authoritative 5, planned 5) and the run records offset 0 for the
sender; its second entry is the sender's first mismatch of the run
(authoritative 9, planned 6).  Were the offset computed there, it would
be `9 - 6 = 3` and the run would proceed; instead the remembered offset
is still 0 and the run aborts with the nonce-conflict panic. -/
theorem c3_counterexample :
    (send_transactions ⟨false, true⟩ [1] c3env c3seq).2 = .panicked .nonceConflict
  ∧ (send_transactions ⟨false, true⟩ [1] c3env c3seq).1.nonce_offset.lookup 1 = some 0
  ∧ (9 : Nat) - 6 = 3
  ∧ ¬ (0 : Nat) = 3 := by
  decide

/-- C3 (amended): with resume mode enabled, the offset for a sender is
computed as `authoritative_nonce - planned_nonce` at the sender's first
*transaction* of the run — whether or not that first observation
mismatches (a matching first observation records offset 0) — is
computed exactly once per sender, is reused unchanged for every
subsequent transaction of that sender, and after applying the
remembered offset the corrected nonce must equal the freshly queried
authoritative nonce or the run aborts fatally with the nonce-conflict
panic after saving the sequence. -/
theorem c3_offset_first_observation (table : List (Address × Nat)) (a : Address)
    (n_auth n_pl d : Nat) (h256 : n_auth < U256_LIMIT) (hd : n_pl + d < U256_LIMIT) :
    (table.lookup a = none → n_pl ≤ n_auth →
       reconcile true table a n_auth n_pl
         = ((a, n_auth - n_pl) :: table, .proceed n_auth (n_auth - n_pl)))
  ∧ (table.lookup a = some d →
       reconcile true table a n_auth n_pl
         = (table, if n_auth = n_pl + d then .proceed (n_pl + d) d else .conflict))
  ∧ (∀ (args : ScriptArgs) (wallets : List Address) (il : Bool) (ch : Nat) (env : Env)
        (i : Nat) (ltx : TransactionRequest) (rest : List (Nat × TypedTransaction))
        (st : RunState),
       args.force_resume = true →
       ltx.«from» = some a → wallets.contains a = true → ltx.nonce = some n_pl →
       env.next_nonce i a = some n_auth →
       st.nonce_offset.lookup a = some d → n_auth ≠ n_pl + d →
       runLoop args wallets il ch env ((i, .legacy ltx) :: rest) st
         = (saveSeq st, .panicked .nonceConflict)) := by
  refine ⟨?_, ?_, ?_⟩
  · intro hl hle
    have hsub : u256_sub n_auth n_pl = some (n_auth - n_pl) := by
      simp [u256_sub, hle]
    have hpl : n_pl + (n_auth - n_pl) = n_auth := by omega
    have hadd : u256_add n_pl (n_auth - n_pl) = some n_auth := by
      simp [u256_add, hpl, h256]
    simp [reconcile, hl, hsub, hadd]
  · intro hl
    have hadd : u256_add n_pl d = some (n_pl + d) := by
      simp [u256_add, hd]
    by_cases he : n_auth = n_pl + d
    · simp [reconcile, hl, hadd, he]
    · simp [reconcile, hl, hadd, he]
  · intro args wallets il ch env i ltx rest st hfr hf hw hn hq hl hne
    have hadd : u256_add n_pl d = some (n_pl + d) := by
      simp [u256_add, hd]
    have hr : reconcile args.force_resume st.nonce_offset a n_auth n_pl
        = (st.nonce_offset, .conflict) := by
      rw [hfr]
      simp [reconcile, hl, hadd, hne]
    exact runLoop_cons_abort args wallets il ch env i _ rest st _ _
      (processTx_conflict args wallets il ch env i ltx st st.nonce_offset a n_auth n_pl
        hf hw hn hq hr)

/-- C3 (witness): the amended behavior at a concrete first observation
with a mismatch — authoritative nonce 9 against planned nonce 6 records
offset 3 and proceeds with the corrected nonce 9. -/
theorem c3_offset_first_observation_witness :
    reconcile true [] 1 9 6 = ([(1, 3)], .proceed 9 3) :=
  (c3_offset_first_observation [] 1 9 6 0 (by decide) (by decide)).1 rfl (by decide)

/-- C4: with resume mode disabled the effective offset is zero and the
reconciliation requires the authoritative nonce to equal the planned
nonce; any mismatch is a fatal nonce conflict that saves the sequence
and aborts the run at that entry — the mismatched transaction is not
submitted (the submission trace is unchanged) and no later entry is
processed (the loop returns at the head entry, leaving `rest`
untouched). -/
theorem c4_strict_rejection_without_resume (args : ScriptArgs) (wallets : List Address)
    (il : Bool) (ch : Nat) (env : Env) (i : Nat) (ltx : TransactionRequest)
    (rest : List (Nat × TypedTransaction)) (st : RunState) (a : Address) (n_auth n_pl : Nat)
    (hfr : args.force_resume = false)
    (hf : ltx.«from» = some a) (hw : wallets.contains a = true)
    (hn : ltx.nonce = some n_pl) (hq : env.next_nonce i a = some n_auth)
    (hlim : n_pl < U256_LIMIT) (hne : n_auth ≠ n_pl) :
    (∀ table, reconcile false table a n_auth n_pl = (table, .conflict))
  ∧ runLoop args wallets il ch env ((i, .legacy ltx) :: rest) st
      = (saveSeq st, .panicked .nonceConflict)
  ∧ (saveSeq st).sent = st.sent := by
  have hrec : ∀ table, reconcile false table a n_auth n_pl = (table, .conflict) := by
    intro table
    simp [reconcile, u256_add, hlim, hne]
  refine ⟨hrec, ?_, rfl⟩
  have hr : reconcile args.force_resume st.nonce_offset a n_auth n_pl
      = (st.nonce_offset, .conflict) := by
    rw [hfr]
    exact hrec st.nonce_offset
  exact runLoop_cons_abort args wallets il ch env i _ rest st _ _
    (processTx_conflict args wallets il ch env i ltx st st.nonce_offset a n_auth n_pl
      hf hw hn hq hr)

/-- C4 (witness): the strict rejection at a concrete run — resume off,
authoritative nonce 9 against planned nonce 7. -/
theorem c4_strict_rejection_without_resume_witness :
    (∀ table, reconcile false table 1 9 7 = (table, .conflict))
  ∧ runLoop ⟨false, false⟩ [1] false 5 c4env [(0, .legacy c4ltx)] (initState c4seq)
      = (saveSeq (initState c4seq), .panicked .nonceConflict)
  ∧ (saveSeq (initState c4seq)).sent = (initState c4seq).sent :=
  c4_strict_rejection_without_resume ⟨false, false⟩ [1] false 5 c4env 0 c4ltx []
    (initState c4seq) 1 9 7 rfl rfl (by decide) rfl rfl (by decide) (by decide)

/-- C9: with resume mode enabled, the first offset computation for a
sender is the unsigned 256-bit subtraction
`authoritative_nonce - planned_nonce`, total only when the
authoritative nonce is at least the planned nonce; when the chain nonce
is behind the planned nonce the subtraction underflows — the run aborts
with the arithmetic-overflow panic (leaving the run state, including
the persisted-write trace, exactly as it was — no save) rather than
raising the nonce-conflict error. -/
theorem c9_underflow_not_conflict (args : ScriptArgs) (wallets : List Address)
    (il : Bool) (ch : Nat) (env : Env) (i : Nat) (ltx : TransactionRequest)
    (rest : List (Nat × TypedTransaction)) (st : RunState) (a : Address) (n_auth n_pl : Nat)
    (hfr : args.force_resume = true)
    (hl : st.nonce_offset.lookup a = none)
    (hf : ltx.«from» = some a) (hw : wallets.contains a = true)
    (hn : ltx.nonce = some n_pl) (hq : env.next_nonce i a = some n_auth)
    (hlt : n_auth < n_pl) :
    reconcile true st.nonce_offset a n_auth n_pl = (st.nonce_offset, .overflow)
  ∧ runLoop args wallets il ch env ((i, .legacy ltx) :: rest) st
      = (st, .panicked .arithmeticOverflow)
  ∧ PanicKind.arithmeticOverflow ≠ PanicKind.nonceConflict := by
  have hsub : u256_sub n_auth n_pl = none := by
    simp only [u256_sub, ite_eq_right_iff]
    omega
  have hr : reconcile true st.nonce_offset a n_auth n_pl = (st.nonce_offset, .overflow) := by
    simp [reconcile, hl, hsub]
  refine ⟨hr, ?_, by decide⟩
  have hr2 : reconcile args.force_resume st.nonce_offset a n_auth n_pl
      = (st.nonce_offset, .overflow) := by
    rw [hfr]
    exact hr
  exact runLoop_cons_abort args wallets il ch env i _ rest st _ _
    (processTx_overflow args wallets il ch env i ltx st st.nonce_offset a n_auth n_pl
      hf hw hn hq hr2)

/-- C9 (witness): the underflow abort at a concrete run — resume on,
authoritative nonce 3 behind planned nonce 7. -/
theorem c9_underflow_not_conflict_witness :
    reconcile true (initState c4seq).nonce_offset 1 3 7 = ((initState c4seq).nonce_offset, .overflow)
  ∧ runLoop ⟨false, true⟩ [1] false 5 c9env [(0, .legacy c4ltx)] (initState c4seq)
      = (initState c4seq, .panicked .arithmeticOverflow)
  ∧ PanicKind.arithmeticOverflow ≠ PanicKind.nonceConflict :=
  c9_underflow_not_conflict ⟨false, true⟩ [1] false 5 c9env 0 c4ltx [] (initState c4seq)
    1 3 7 rfl rfl rfl (by decide) rfl rfl (by decide)

/-- C10: every transaction stored in the deployment sequence must be
the legacy `TypedTransaction` variant: `into_legacy_ref` succeeds
exactly on the legacy variant and its panic on any other variant fires
at the start of the entry's processing — before wallet/signer
resolution (the result is the same for every wallet list) and without
persisting the store (the run state is returned untouched) — and
`into_1559` accepts only the legacy and EIP-1559 variants. -/
theorem c10_only_legacy_stored :
    (∀ t, into_legacy_ref (.legacy t) = some t)
  ∧ (∀ e, into_legacy_ref (.eip1559 e) = none)
  ∧ (∀ t al, into_legacy_ref (.eip2930 t al) = none)
  ∧ (∀ t, (into_1559 (.legacy t)).isSome = true)
  ∧ (∀ e, into_1559 (.eip1559 e) = some e)
  ∧ (∀ t al, into_1559 (.eip2930 t al) = none)
  ∧ (∀ (args : ScriptArgs) (wallets : List Address) (il : Bool) (ch : Nat) (env : Env)
        (i : Nat) (tx : TypedTransaction) (st : RunState), into_legacy_ref tx = none →
       processTx args wallets il ch env i tx st = (st, some .wrongTxType))
  ∧ (∀ (args : ScriptArgs) (wallets : List Address) (il : Bool) (ch : Nat) (env : Env)
        (i : Nat) (tx : TypedTransaction) (rest : List (Nat × TypedTransaction))
        (st : RunState), into_legacy_ref tx = none →
       runLoop args wallets il ch env ((i, tx) :: rest) st = (st, .panicked .wrongTxType)) := by
  refine ⟨fun t => rfl, fun e => rfl, fun t al => rfl, fun t => rfl, fun e => rfl,
    fun t al => rfl, ?_, ?_⟩
  · intro args wallets il ch env i tx st hno
    simp [processTx, hno]
  · intro args wallets il ch env i tx rest st hno
    exact runLoop_cons_abort args wallets il ch env i tx rest st st .wrongTxType
      (by simp [processTx, hno])

end Foundry
